import Mathlib

/-!
Verification of the Obsidian-to-Notion sync script
(`.github/scripts/sync_notion.py`).

The script is embedded shallowly: Python strings are modelled as
`List Char` (Python string indices are codepoint indices, matching list
positions), the filesystem is a finite list of existing path strings,
and every partial Python construct (image resolution, lookup) returns
an `Option`.  Regular-expression uses in the source are each specific
fixed patterns; they are translated into equivalent explicit scanning
functions over character lists (the translations were checked against
Python's `re` semantics for lazy quantifiers and anchored matches).

Whitespace is modelled as the ASCII whitespace set recognised by both
Python's `str.strip` and the regex class `\s` (the source documents are
ASCII/UTF-8 markdown; non-ASCII Unicode whitespace is out of scope).
-/

/-- ASCII whitespace, as recognised by Python `str.strip()` and `\s`. -/
def isPySpace (c : Char) : Bool :=
  c = ' ' || c = '\t' || c = '\n' || c = '\x0d' || c = '\x0b' || c = '\x0c'

/-- Python `str.lstrip()` (ASCII fragment). -/
def lstripL (cs : List Char) : List Char := cs.dropWhile isPySpace

/-- Python `str.rstrip()` (ASCII fragment). -/
def rstripL (cs : List Char) : List Char := (cs.reverse.dropWhile isPySpace).reverse

/-- Python `str.strip()` (ASCII fragment). -/
def stripL (cs : List Char) : List Char := lstripL (rstripL cs)

/-- Python `str.strip(set)`: remove the given characters from both ends. -/
def stripCharsL (set : List Char) (cs : List Char) : List Char :=
  ((cs.dropWhile (set.contains ·)).reverse.dropWhile (set.contains ·)).reverse

/-- Python `str.rstrip(set)`. -/
def rstripCharsL (set : List Char) (cs : List Char) : List Char :=
  (cs.reverse.dropWhile (set.contains ·)).reverse

/-- ASCII lowercasing, as `str.lower()` acts on ASCII text. -/
def asciiLower (c : Char) : Char :=
  if 'A' ≤ c ∧ c ≤ 'Z' then Char.ofNat (c.toNat + 32) else c

/-- Python `s.lower()` on a character list (ASCII fragment). -/
def lowerL (cs : List Char) : List Char := cs.map asciiLower

/-- Index of the first occurrence of `pat` in `cs` (Python `str.find` ≥ 0
when present); `none` when `pat` does not occur. -/
def findSub : List Char → List Char → Option Nat
  | [], pat => if pat = [] then some 0 else none
  | c :: rest, pat =>
    if pat.isPrefixOf (c :: rest) then some 0
    else (findSub rest pat).map (· + 1)

/-- Python `pat in s` substring test. -/
def containsSubL (cs pat : List Char) : Bool := (findSub cs pat).isSome

/-- Python `s.split('\n')`: split on every newline, keeping empty pieces. -/
def splitNl : List Char → List (List Char)
  | [] => [[]]
  | c :: rest =>
    if c = '\n' then [] :: splitNl rest
    else
      match splitNl rest with
      | [] => [[c]]
      | l :: ls => (c :: l) :: ls

/-- Python `'\n'.join(lines)`. -/
def joinNl : List (List Char) → List Char
  | [] => []
  | [l] => l
  | l :: ls => l ++ '\n' :: joinNl ls

/-- `pathlib.Path(s).name`: the final path component (trailing slashes
are normalised away, as `PurePath` does). -/
def lastComponentL (cs : List Char) : List Char :=
  ((cs.reverse.dropWhile (· = '/')).takeWhile (· ≠ '/')).reverse

/-- String wrapper for `lastComponentL` (`Path(s).name`). -/
def pathName (s : String) : String := String.mk (lastComponentL s.data)

/-- String-level startswith via the underlying character list. -/
def strStartsWith (s pat : String) : Bool := pat.data.isPrefixOf s.data

/-!
## SHA-256 (`hashlib.sha256`)

Executable model of the hash the script calls through `hashlib`.
32-bit machine words are `Nat` values reduced modulo `2^32` wherever an
operation can overflow.  Bytes are `Nat` values below 256.
-/

/-- 2^32, the 32-bit word modulus. -/
def w32 : Nat := 4294967296

/-- Right rotation of a 32-bit word. -/
def rotr32 (n x : Nat) : Nat := ((x >>> n) ||| (x <<< (32 - n))) % w32

/-- SHA-256 Σ₀. -/
def bsig0 (x : Nat) : Nat := rotr32 2 x ^^^ rotr32 13 x ^^^ rotr32 22 x

/-- SHA-256 Σ₁. -/
def bsig1 (x : Nat) : Nat := rotr32 6 x ^^^ rotr32 11 x ^^^ rotr32 25 x

/-- SHA-256 σ₀. -/
def ssig0 (x : Nat) : Nat := rotr32 7 x ^^^ rotr32 18 x ^^^ (x >>> 3)

/-- SHA-256 σ₁. -/
def ssig1 (x : Nat) : Nat := rotr32 17 x ^^^ rotr32 19 x ^^^ (x >>> 10)

/-- SHA-256 Ch(e,f,g): bitwise e ? f : g. -/
def ch32 (e f g : Nat) : Nat := (e &&& f) ^^^ ((e ^^^ 4294967295) &&& g)

/-- SHA-256 Maj(a,b,c). -/
def maj32 (a b c : Nat) : Nat := (a &&& b) ^^^ (a &&& c) ^^^ (b &&& c)

/-- The eight 32-bit working registers of the compression function. -/
structure Sha2State where
  a : Nat
  b : Nat
  c : Nat
  d : Nat
  e : Nat
  f : Nat
  g : Nat
  h : Nat
deriving DecidableEq

/-- Initial hash value H⁽⁰⁾ (fractional parts of √2 … √19). -/
def sha2Init : Sha2State :=
  ⟨1779033703, 3144134277, 1013904242, 2773480762,
   1359893119, 2600822924, 528734635, 1541459225⟩

/-- Round constants K (fractional parts of the cube roots of the first
64 primes). -/
def sha2K : List Nat :=
  [1116352408, 1899447441, 3049323471, 3921009573, 961987163, 1508970993, 2453635748, 2870763221,
   3624381080, 310598401, 607225278, 1426881987, 1925078388, 2162078206, 2614888103, 3248222580,
   3835390401, 4022224774, 264347078, 604807628, 770255983, 1249150122, 1555081692, 1996064986,
   2554220882, 2821834349, 2952996808, 3210313671, 3336571891, 3584528711, 113926993, 338241895,
   666307205, 773529912, 1294757372, 1396182291, 1695183700, 1986661051, 2177026350, 2456956037,
   2730485921, 2820302411, 3259730800, 3345764771, 3516065817, 3600352804, 4094571909, 275423344,
   430227734, 506948616, 659060556, 883997877, 958139571, 1322822218, 1537002063, 1747873779,
   1955562222, 2024104815, 2227730452, 2361852424, 2428436474, 2756734187, 3204031479, 3329325298]

/-- One compression round with round constant `k` and schedule word `w`. -/
def sha2Round (s : Sha2State) (kw : Nat × Nat) : Sha2State :=
  let t1 := (s.h + bsig1 s.e + ch32 s.e s.f s.g + kw.1 + kw.2) % w32
  let t2 := (bsig0 s.a + maj32 s.a s.b s.c) % w32
  ⟨(t1 + t2) % w32, s.a, s.b, s.c, (s.d + t1) % w32, s.e, s.f, s.g⟩

/-- The next message-schedule word from the last 16 already produced. -/
def sha2NextW (ws : List Nat) : Nat :=
  let l := ws.length
  (ssig1 (ws.getD (l - 2) 0) + ws.getD (l - 7) 0
    + ssig0 (ws.getD (l - 15) 0) + ws.getD (l - 16) 0) % w32

/-- Extend the 16 chunk words by `n` further schedule words. -/
def sha2Extend : Nat → List Nat → List Nat
  | 0, ws => ws
  | n + 1, ws => sha2Extend n (ws ++ [sha2NextW ws])

/-- Big-endian 32-bit words from a list of bytes (chunk length 64). -/
def bytesToWords : List Nat → List Nat
  | b0 :: b1 :: b2 :: b3 :: rest =>
    (b0 * 16777216 + b1 * 65536 + b2 * 256 + b3) :: bytesToWords rest
  | _ => []

/-- Process one 64-byte chunk: 64 rounds, then add to the incoming state. -/
def sha2Chunk (s : Sha2State) (chunk : List Nat) : Sha2State :=
  let ws := sha2Extend 48 (bytesToWords chunk)
  let t := (sha2K.zip ws).foldl sha2Round s
  ⟨(s.a + t.a) % w32, (s.b + t.b) % w32, (s.c + t.c) % w32, (s.d + t.d) % w32,
   (s.e + t.e) % w32, (s.f + t.f) % w32, (s.g + t.g) % w32, (s.h + t.h) % w32⟩

/-- Big-endian 64-bit length field, as eight bytes. -/
def be64 (n : Nat) : List Nat :=
  [n >>> 56 % 256, n >>> 48 % 256, n >>> 40 % 256, n >>> 32 % 256,
   n >>> 24 % 256, n >>> 16 % 256, n >>> 8 % 256, n % 256]

/-- SHA-256 padding: 0x80, zeros to 56 mod 64, then the bit length. -/
def sha2Pad (msg : List Nat) : List Nat :=
  let l := msg.length
  msg ++ 128 :: List.replicate ((64 - (l + 9) % 64) % 64) 0 ++ be64 (8 * l)

/-- Split a byte list into 64-byte chunks (`fuel` bounds the recursion;
it is instantiated with the list length, which suffices because every
step removes 64 bytes). -/
def chunks64Aux : Nat → List Nat → List (List Nat)
  | 0, _ => []
  | _, [] => []
  | fuel + 1, l => l.take 64 :: chunks64Aux fuel (l.drop 64)

/-- All 64-byte chunks of a padded message. -/
def chunks64 (l : List Nat) : List (List Nat) := chunks64Aux l.length l

/-- The final state after hashing a byte message. -/
def sha2Final (msg : List Nat) : Sha2State :=
  (chunks64 (sha2Pad msg)).foldl sha2Chunk sha2Init

/-- Lowercase hex digit. -/
def hexDigitChar (n : Nat) : Char :=
  if n < 10 then Char.ofNat (48 + n) else Char.ofNat (87 + n)

/-- Eight lowercase hex digits of a 32-bit word, most significant first. -/
def toHex8C (x : Nat) : List Char :=
  (List.range 8).map (fun i => hexDigitChar ((x >>> (28 - 4 * i)) % 16))

/-- Hex digest characters of a final state. -/
def stateHexChars (s : Sha2State) : List Char :=
  toHex8C s.a ++ toHex8C s.b ++ toHex8C s.c ++ toHex8C s.d ++
  toHex8C s.e ++ toHex8C s.f ++ toHex8C s.g ++ toHex8C s.h

/-- `hashlib.sha256(bytes).hexdigest()` as a character list. -/
def sha256HexChars (msg : List Nat) : List Char := stateHexChars (sha2Final msg)

/-- UTF-8 encoding of one character (`str.encode('utf-8')`, per char). -/
def utf8CharBytes (c : Char) : List Nat :=
  let n := c.toNat
  if n < 128 then [n]
  else if n < 2048 then [192 + n / 64, 128 + n % 64]
  else if n < 65536 then [224 + n / 4096, 128 + (n / 64) % 64, 128 + n % 64]
  else [240 + n / 262144, 128 + (n / 4096) % 64, 128 + (n / 64) % 64, 128 + n % 64]

/-- UTF-8 encoding of a character list (`str.encode('utf-8')`). -/
def utf8Bytes (cs : List Char) : List Nat := (cs.map utf8CharBytes).flatten

/-!
## Identity deriver (`generate_file_id`)

`Path.relative_to` is modelled on slash-separated path strings: the
file lies under the vault root exactly when `vaultPath ++ "/"` is a
literal prefix, in which case the relative path drops that prefix;
otherwise (the `ValueError` fallback) the path is used as given.
-/

/-- The path made relative to the vault root, with the fallback to the
path as given when the file is outside the root. -/
def relToVault (vaultPath filePath : List Char) : List Char :=
  if (vaultPath ++ ['/']).isPrefixOf filePath then
    filePath.drop (vaultPath.length + 1)
  else filePath

/-- `str(relative_path).replace('\\', '/')`: separator normalisation. -/
def backslashToSlash (cs : List Char) : List Char :=
  cs.map (fun c => if c = '\\' then '/' else c)

/-- The normalised relative path that is hashed. -/
def normalizedRelPath (vaultPath filePath : String) : List Char :=
  backslashToSlash (relToVault vaultPath.data filePath.data)

/-- `generate_file_id`: first 16 hex characters of the SHA-256 of the
UTF-8 encoded normalised relative path. -/
def generate_file_id (vaultPath filePath : String) : String :=
  String.mk ((sha256HexChars (utf8Bytes (normalizedRelPath vaultPath filePath))).take 16)

/-!
## Asset resolver (`find_image_path`, `_resolve_image_path`,
`upload_image_to_notion`)

The filesystem is a finite list of existing paths (files and
directories); `Path.exists()` is membership.  Path joining is
`dir ++ "/" ++ name`, matching `pathlib` on the slash-normalised posix
paths the script works with.
-/

/-- Join a directory and a relative member (`dir / name`). -/
def pathJoin (dir name : String) : String :=
  if name = "" then dir else dir ++ "/" ++ name

/-- The extension list tried by `find_image_path`, in source order.
Note: uppercase `.GIF` and `.WEBP` are absent from the source. -/
def imageExts : List String :=
  [".png", ".jpg", ".jpeg", ".gif", ".webp", ".PNG", ".JPG", ".JPEG"]

/-- The `for ext in [...]: if (dir / (name + ext)).exists(): return`
loop: first candidate with an appended extension that exists. -/
def tryExts (fs : List String) (dir base : String) : Option String :=
  (imageExts.map (fun e => pathJoin dir (base ++ e))).find? (fun p => fs.contains p)

/-- `find_image_path(markdown_dir, image_ref)`: wiki-style reference
resolution.  Strips `[`, `]`, `!` from both ends, keeps the base
filename, then searches `images/`, `attachments/` (each only if the
directory exists), and the document's own directory. -/
def find_image_path (fs : List String) (markdownDir imageRef : String) : Option String :=
  let cleanName := pathName (String.mk (stripCharsL ['[', ']', '!'] imageRef.data))
  let imagesDir := pathJoin markdownDir "images"
  let fromImages := if fs.contains imagesDir then tryExts fs imagesDir cleanName else none
  let attachDir := pathJoin markdownDir "attachments"
  let fromAttach := if fs.contains attachDir then tryExts fs attachDir cleanName else none
  (fromImages.or fromAttach).or (tryExts fs markdownDir cleanName)

/-- `_resolve_image_path(markdown_dir, image_path)`: markdown-style
reference resolution.  `http(s)://` URLs return `None` (the source
comment reads "external image, no processing needed", but `None` is
also the not-found result).  Absolute paths are checked directly;
relative paths are tried against the document directory, then
`images/`, `assets/`, `attachments/` by filename. -/
def resolve_image_path (fs : List String) (markdownDir imagePath : String) : Option String :=
  if strStartsWith imagePath "http://" || strStartsWith imagePath "https://" then none
  else if strStartsWith imagePath "/" then
    if fs.contains imagePath then some imagePath else none
  else
    let fullPath := pathJoin markdownDir imagePath
    if fs.contains fullPath then some fullPath
    else
      let n := pathName imagePath
      let p1 := pathJoin (pathJoin markdownDir "images") n
      if fs.contains p1 then some p1
      else
        let p2 := pathJoin (pathJoin markdownDir "assets") n
        if fs.contains p2 then some p2
        else
          let p3 := pathJoin (pathJoin markdownDir "attachments") n
          if fs.contains p3 then some p3 else none

/-- Bytes that `urllib.parse.quote` leaves unescaped with `safe='/'`:
ASCII letters, digits, `_.-~` and `/`. -/
def quoteSafeByte (b : Nat) : Bool :=
  (48 ≤ b && b ≤ 57) || (65 ≤ b && b ≤ 90) || (97 ≤ b && b ≤ 122) ||
  b = 45 || b = 46 || b = 95 || b = 126 || b = 47

/-- Uppercase hex digit (percent-encoding uses uppercase). -/
def hexUpperChar (n : Nat) : Char :=
  if n < 10 then Char.ofNat (48 + n) else Char.ofNat (55 + n)

/-- `urllib.parse.quote(s.encode('utf-8'), safe='/')`. -/
def urlQuote (cs : List Char) : List Char :=
  ((utf8Bytes cs).map (fun b =>
    if quoteSafeByte b then [Char.ofNat b]
    else ['%', hexUpperChar (b / 16), hexUpperChar (b % 16)])).flatten

/-- `upload_image_to_notion(image_path)`: builds the GitHub raw URL for
the image.  The repository and branch come from `GITHUB_REPO` and
`GITHUB_BRANCH`, modelled at their in-source defaults
(`alon211/obsidian_public`, `main`).  The `relative_to` fallback keeps
only the filename.  The function cannot fail (its body raises no
exception for string inputs), so it always returns `some`. -/
def upload_image_to_notion (vaultPath imagePath : String) : Option String :=
  let relPath :=
    if (vaultPath.data ++ ['/']).isPrefixOf imagePath.data then
      imagePath.data.drop (vaultPath.length + 1)
    else (pathName imagePath).data
  let encoded := urlQuote (backslashToSlash relPath)
  some ("https://raw.githubusercontent.com/alon211/obsidian_public/main/" ++ String.mk encoded)

/-!
## Block parser (`convert_obsidian_to_notion_blocks`)

The dict-shaped Notion payloads are modelled as a closed variant; the
`"type"` key and the per-type payload key always agree in the source,
so nothing is lost.  The parsing context bundles the filesystem, the
vault root and the markdown file's directory.
-/

/-- Notion content blocks produced by the converter. -/
inductive Block where
  | heading (level : Nat) (text : String)
  | bulleted (text : String)
  | todo (text : String) (checked : Bool)
  | code (language text : String)
  | quote (text : String)
  | image (url : String)
  | paragraph (text : String)
deriving DecidableEq

/-- Parsing context: filesystem, vault root, markdown file directory. -/
structure Ctx where
  fs : List String
  vaultPath : String
  markdownDir : String

/-- Length of the match of `!\[\[.*?\]\]` anchored at the start of
`cs`, if any (lazy: the group ends at the first following `]]`). -/
def wikiAt (cs : List Char) : Option Nat :=
  if ['!', '[', '['].isPrefixOf cs then
    (findSub (cs.drop 3) [']', ']']).map (fun j => 3 + j + 2)
  else none

/-- Length of the match of `!\[.*?\]\(.*?\)` anchored at the start of
`cs`, if any (lazy: alt text ends at the first `](`, the path at the
first following `)`). -/
def mdAt (cs : List Char) : Option Nat :=
  if ['!', '['].isPrefixOf cs then
    match findSub (cs.drop 2) [']', '('] with
    | none => none
    | some j =>
      (findSub (cs.drop (2 + j + 2)) [')']).map (fun k => 2 + j + 2 + k + 1)
  else none

/-- The combined alternation `!\[\[.*?\]\]|!\[.*?\]\(.*?\)` used to
collect all inline image positions: the wiki branch is preferred. -/
def combAt (cs : List Char) : Option Nat :=
  (wikiAt cs).or (mdAt cs)

/-- `re.finditer` for a fixed pattern given by its anchored matcher:
scan left to right, record `(start, end, matched text)`, continue after
each match (all patterns here match at least one character, so the list
length is enough fuel for a full scan). -/
def scanPat (at? : List Char → Option Nat) :
    Nat → List Char → Nat → List (Nat × Nat × List Char)
  | 0, _, _ => []
  | _, [], _ => []
  | fuel + 1, l@(_ :: rest), pos =>
    match at? l with
    | some n => (pos, pos + n, l.take n) :: scanPat at? fuel (l.drop n) (pos + n)
    | none => scanPat at? fuel rest (pos + 1)

/-- All matches of the combined inline-image pattern in a line. -/
def allInlineMatches (cs : List Char) : List (Nat × Nat × List Char) :=
  scanPat combAt cs.length cs 0

/-- All matches of the markdown inline-image pattern alone. -/
def mdInlineMatches (cs : List Char) : List (Nat × Nat × List Char) :=
  scanPat mdAt cs.length cs 0

/-- All matches of the wiki inline-image pattern alone. -/
def wikiInlineMatches (cs : List Char) : List (Nat × Nat × List Char) :=
  scanPat wikiAt cs.length cs 0

/-- `re.match(r'^!\[\[(.*?)\]\]$', line)`: the whole line is one
wiki-style image reference; returns the group (between `![[` and the
final `]]`). -/
def wikiFull (cs : List Char) : Option (List Char) :=
  if ['!', '[', '['].isPrefixOf cs ∧ [']', ']'].isSuffixOf cs ∧ 5 ≤ cs.length then
    some ((cs.drop 3).take (cs.length - 5))
  else none

/-- `re.match(r'^!\[(.*?)\]\((.*?)\)$', line)`: the whole line is one
markdown-style image reference; returns `(alt, path)` (alt up to the
first `](`, path up to the final `)`). -/
def mdFull (cs : List Char) : Option (List Char × List Char) :=
  if ['!', '['].isPrefixOf cs ∧ [')'].isSuffixOf cs ∧ 3 ≤ cs.length then
    let body := (cs.drop 2).take (cs.length - 3)
    match findSub body [']', '('] with
    | none => none
    | some j => some (body.take j, body.drop (j + 2))
  else none

/-- Line 335's todo pattern `^\-\s\[[\sx]\]` (note: it requires the
marker, one whitespace, then `[ ]` or `[x]` with a lowercase x). -/
def todoPat (cs : List Char) : Bool :=
  match cs with
  | '-' :: c :: '[' :: d :: ']' :: _ => isPySpace c && (isPySpace d || d = 'x')
  | _ => false

/-- Line 323's bulleted pattern `^[\-\*]\s+`. -/
def bulletPat (cs : List Char) : Bool :=
  match cs with
  | c :: d :: _ => (c = '-' || c = '*') && isPySpace d
  | _ => false

/-- `re.sub(r'^[\-\*]\s+', '', line)`: drop the marker and the greedy
whitespace run after it. -/
def bulletContent (cs : List Char) : List Char := (cs.drop 1).dropWhile isPySpace

/-- The blocks emitted for one inline image-reference match, from its
matched text (lines 513–577).  Wiki-style references (dispatched on the
`![[` prefix) go through `_resolve_image_path`; markdown-style ones
split the inner text at the first `](`. -/
def inlineRefBlocks (ctx : Ctx) (text : List Char) : List Block :=
  if ['!', '[', '['].isPrefixOf text then
    let imageName := String.mk ((text.drop 3).take (text.length - 5))
    match resolve_image_path ctx.fs ctx.markdownDir imageName with
    | some p =>
      if ctx.fs.contains p then
        match upload_image_to_notion ctx.vaultPath p with
        | some url => [Block.image url]
        | none => [Block.paragraph ("[📷 " ++ imageName ++ "]")]
      else [Block.paragraph ("[⚠️ " ++ imageName ++ "]")]
    | none => [Block.paragraph ("[⚠️ " ++ imageName ++ "]")]
  else
    let inner := (text.drop 2).take (text.length - 3)
    match findSub inner [']', '('] with
    | none => []
    | some j =>
      let altText := String.mk (inner.take j)
      let imagePath := String.mk (rstripCharsL [')'] (inner.drop (j + 2)))
      match resolve_image_path ctx.fs ctx.markdownDir imagePath with
      | some p =>
        if ctx.fs.contains p then
          match upload_image_to_notion ctx.vaultPath p with
          | some url => [Block.image url]
          | none =>
            [Block.paragraph ("[📷 " ++ (if altText = "" then pathName p else altText) ++ "]")]
        else [Block.paragraph ("[⚠️ " ++ imagePath ++ "]")]
      | none => [Block.paragraph ("[⚠️ " ++ imagePath ++ "]")]

/-- The loop of lines 507–594: walk the matches in order, emitting one
block list per reference and collecting the text segments between and
around them; then the combined, stripped text as one trailing
paragraph, if anything nonblank remains. -/
def inlineStep (ctx : Ctx) (cs : List Char)
    (acc : List Block × List (List Char) × Nat) (m : Nat × Nat × List Char) :
    List Block × List (List Char) × Nat :=
  let parts := if m.1 > acc.2.2 then acc.2.1 ++ [(cs.drop acc.2.2).take (m.1 - acc.2.2)]
               else acc.2.1
  (acc.1 ++ inlineRefBlocks ctx m.2.2, parts, m.2.1)

def inlineEmit (ctx : Ctx) (cs : List Char) (ms : List (Nat × Nat × List Char)) :
    List Block :=
  let fin := ms.foldl (inlineStep ctx cs) ([], [], 0)
  let parts := if fin.2.2 < cs.length then fin.2.1 ++ [cs.drop fin.2.2] else fin.2.1
  let combined := stripL parts.flatten
  fin.1 ++
    if parts ≠ [] ∧ combined ≠ [] then [Block.paragraph (String.mk combined)] else []

/-- One iteration of the scanning loop of
`convert_obsidian_to_notion_blocks` (lines 291–608): dispatch on the
current line (`rstrip`-ped), returning the emitted blocks and the lines
that remain.  `first` is true exactly when the cursor is at line 0, the
only place the front-matter rule applies. -/
def parseStep (ctx : Ctx) (first : Bool) (l : List Char) (rest : List (List Char)) :
    List Block × List (List Char) :=
  let line := rstripL l
  if first ∧ line = ['-', '-', '-'] then
    ([], (rest.dropWhile (fun s => stripL s ≠ ['-', '-', '-'])).drop 1)
  else if stripL line = [] then ([], rest)
  else if line.headD ' ' = '#' then
    let lstripped := line.dropWhile (· = '#')
    let level := min (line.length - lstripped.length) 3
    ([Block.heading level (String.mk (stripL lstripped))], rest)
  else if bulletPat line then
    ([Block.bulleted (String.mk (bulletContent line))], rest)
  else if todoPat line then
    ([Block.todo (String.mk ((line.drop 5).dropWhile isPySpace))
        (containsSubL (lowerL line) ['[', 'x', ']'])], rest)
  else if ['`', '`', '`'].isPrefixOf (stripL line) then
    let langRaw := stripL ((stripL line).drop 3)
    let lang := if langRaw = [] then "plain text" else String.mk langRaw
    let codeLines := rest.takeWhile (fun s => ¬ ['`', '`', '`'].isPrefixOf (stripL s))
    ([Block.code lang (String.mk (joinNl codeLines))],
     (rest.dropWhile (fun s => ¬ ['`', '`', '`'].isPrefixOf (stripL s))).drop 1)
  else if line.headD ' ' = '>' then
    ([Block.quote (String.mk (stripL (line.drop 1)))], rest)
  else match wikiFull line with
  | some nameCs =>
    let imageName := String.mk nameCs
    (match find_image_path ctx.fs ctx.markdownDir imageName with
     | some p =>
       match upload_image_to_notion ctx.vaultPath p with
       | some url => [Block.image url]
       | none => [Block.paragraph ("[📷 图片: " ++ imageName ++ "]")]
     | none => [Block.paragraph ("[⚠️ 图片未找到: " ++ imageName ++ "]")], rest)
  | none =>
    match mdFull line with
    | some alt_path =>
      let imagePath := String.mk alt_path.2
      (match resolve_image_path ctx.fs ctx.markdownDir imagePath with
       | some p =>
         if ctx.fs.contains p then
           match upload_image_to_notion ctx.vaultPath p with
           | some url => [Block.image url]
           | none => [Block.paragraph ("[📷 图片: " ++ pathName p ++ "]")]
         else [Block.paragraph ("[⚠️ 图片未找到: " ++ imagePath ++ "]")]
       | none => [Block.paragraph ("[⚠️ 图片未找到: " ++ imagePath ++ "]")], rest)
    | none =>
      let hasInline := mdInlineMatches line ≠ [] ∨ wikiInlineMatches line ≠ []
      let ms := allInlineMatches line
      if hasInline ∧ ms ≠ [] then (inlineEmit ctx line ms, rest)
      else if stripL line ≠ [] then ([Block.paragraph (String.mk (stripL line))], rest)
      else ([], rest)

/-- The whole scanning loop; `fuel` bounds the recursion and is
instantiated with the number of lines, which suffices because every
step consumes at least the current line. -/
def convertGo (ctx : Ctx) : Nat → Bool → List (List Char) → List Block
  | 0, _, _ => []
  | _, _, [] => []
  | fuel + 1, first, l :: rest =>
    let st := parseStep ctx first l rest
    st.1 ++ convertGo ctx fuel false st.2

/-- `convert_obsidian_to_notion_blocks(markdown_content, markdown_dir)`. -/
def convert_obsidian_to_notion_blocks (ctx : Ctx) (content : String) : List Block :=
  let lines := splitNl content.data
  convertGo ctx lines.length true lines

/-!
## Sync engine (`create_or_update_page`, `update_page_blocks`)

The remote interaction is modelled as the list of remote requests the
engine issues for one document, parameterised by the (externally
determined) lookup result.  Failure paths of the collaborator are out
of scope; the trace is the sequence of calls on the all-success path.
-/

/-- Title derivation of lines 777–781: the file stem, overridden by the
stripped first line of the raw content when it starts with `#`. -/
def titleOf (stem : String) (content : String) : String :=
  let firstLine := stripL ((splitNl content.data).headD [])
  if firstLine.headD ' ' = '#' then
    String.mk (stripL (firstLine.dropWhile (· = '#')))
  else stem

/-- Batches of at most 100 produced by `range(0, len(blocks), 100)`
slicing (`fuel` bounds recursion; the list length suffices since each
step removes 100 elements). -/
def chunks100Aux : Nat → List Block → List (List Block)
  | 0, _ => []
  | _, [] => []
  | fuel + 1, l => l.take 100 :: chunks100Aux fuel (l.drop 100)

/-- `blocks[i:i+100]` for `i in range(0, len(blocks), 100)`. -/
def chunks100 (l : List Block) : List (List Block) := chunks100Aux l.length l

/-- Remote requests issued while reconciling one document. -/
inductive RemoteOp where
  | queryByFileId (fileId : String)
  | clearBlocks
  | createPage (title : String) (children : List Block)
  | appendBlocks (children : List Block)
deriving DecidableEq

/-- The remote-call trace of `create_or_update_page` for a document
whose parse produced `blocks`, given the lookup outcome `existing`
(lines 787–843): an empty parse skips every remote call; otherwise the
lookup runs, then either clear-and-append batches of 100 (update path)
or a create call carrying the first 100 blocks followed by append
batches of 100 for the rest (create path). -/
def create_or_update_ops (fileId title : String) (existing : Option String)
    (blocks : List Block) : List RemoteOp :=
  if blocks.isEmpty then []
  else
    RemoteOp.queryByFileId fileId ::
      match existing with
      | some _ =>
        RemoteOp.clearBlocks :: (chunks100 blocks).map RemoteOp.appendBlocks
      | none =>
        RemoteOp.createPage title (blocks.take 100) ::
          (chunks100 (blocks.drop 100)).map RemoteOp.appendBlocks

/-- The block batches carried by the append calls of a trace. -/
def appendCalls (ops : List RemoteOp) : List (List Block) :=
  ops.filterMap (fun op => match op with
    | RemoteOp.appendBlocks c => some c
    | _ => none)

/-- The block batches carried by the create calls of a trace. -/
def createCalls (ops : List RemoteOp) : List (List Block) :=
  ops.filterMap (fun op => match op with
    | RemoteOp.createPage _ c => some c
    | _ => none)

/-!
## Spec-side reference definition for the wiki-style search

Used only to compare the source's extension list with the spec's
wording for claim C5.
-/

/-- Modelled from the spec: the extension list §4.2a describes —
"`.png, .jpg, .jpeg, .gif, .webp` and their uppercase variants". -/
def imageExtsSpec : List String :=
  [".png", ".jpg", ".jpeg", ".gif", ".webp", ".PNG", ".JPG", ".JPEG", ".GIF", ".WEBP"]

/-- Modelled from the spec: §4.2a wiki-style resolution, identical to
`find_image_path` except that all ten spec extensions are tried. -/
def find_image_path_spec (fs : List String) (markdownDir imageRef : String) :
    Option String :=
  let cleanName := pathName (String.mk (stripCharsL ['[', ']', '!'] imageRef.data))
  let try10 := fun (dir : String) =>
    (imageExtsSpec.map (fun e => pathJoin dir (cleanName ++ e))).find? (fun p => fs.contains p)
  let imagesDir := pathJoin markdownDir "images"
  let fromImages := if fs.contains imagesDir then try10 imagesDir else none
  let attachDir := pathJoin markdownDir "attachments"
  let fromAttach := if fs.contains attachDir then try10 attachDir else none
  (fromImages.or fromAttach).or (try10 markdownDir)

/-!
## Supporting lemmas
-/

theorem dropWhile_idem (p : α → Bool) (l : List α) :
    (l.dropWhile p).dropWhile p = l.dropWhile p := by
  induction l with
  | nil => rfl
  | cons a t ih =>
    by_cases hp : p a
    · simp [List.dropWhile_cons, hp, ih]
    · simp [List.dropWhile_cons, hp]

theorem rstripL_idem (l : List Char) : rstripL (rstripL l) = rstripL l := by
  simp [rstripL, dropWhile_idem]

theorem strip_rstrip (l : List Char) : stripL (rstripL l) = lstripL (rstripL l) := by
  simp only [stripL, rstripL_idem]

theorem lstripL_cons_of_neg {a : Char} {t : List Char} (ha : isPySpace a = false) :
    lstripL (a :: t) = a :: t := by
  simp [lstripL, List.dropWhile_cons, ha]

theorem splitNl_ne_nil (cs : List Char) : splitNl cs ≠ [] := by
  cases cs with
  | nil => simp [splitNl]
  | cons c rest =>
    simp only [splitNl]
    split
    · simp
    · split <;> simp

theorem convertGo_nil (ctx : Ctx) (fuel : Nat) (first : Bool) :
    convertGo ctx fuel first [] = [] := by
  cases fuel <;> rfl

theorem dropWhile_length_le (p : α → Bool) (l : List α) :
    (l.dropWhile p).length ≤ l.length :=
  (List.dropWhile_sublist p (l := l)).length_le

/-!
## SHA-256 digest shape and validation
-/

theorem toHex8C_length (x : Nat) : (toHex8C x).length = 8 := by
  simp [toHex8C]

theorem sha256HexChars_length (msg : List Nat) : (sha256HexChars msg).length = 64 := by
  simp [sha256HexChars, stateHexChars, toHex8C_length]

/-- Characters that can appear in a lowercase hex digest. -/
def isHexLower (c : Char) : Bool := "0123456789abcdef".data.contains c

theorem hexDigitChar_mem (n : Nat) (h : n < 16) : isHexLower (hexDigitChar n) = true := by
  interval_cases n <;> decide

theorem sha256HexChars_hex (msg : List Nat) :
    ∀ c ∈ sha256HexChars msg, isHexLower c = true := by
  intro c hc
  have step : ∀ x : Nat, ∀ d ∈ toHex8C x, isHexLower d = true := by
    intro x d hd
    simp only [toHex8C, List.mem_map] at hd
    obtain ⟨i, -, rfl⟩ := hd
    exact hexDigitChar_mem _ (Nat.mod_lt _ (by norm_num))
  simp only [sha256HexChars, stateHexChars, List.mem_append] at hc
  rcases hc with ((((((h | h) | h) | h) | h) | h) | h) | h <;> exact step _ _ h

/-- Validation of the SHA-256 model against the FIPS 180-4 single-block
test vector. -/
theorem sha256_model_abc :
    String.mk (sha256HexChars (utf8Bytes "abc".data))
      = "ba7816bf8f01cfea414140de5dae2223b00361a396177a9cb410ff61f20015ad" := by
  decide

/-- Validation of the SHA-256 model on the empty message. -/
theorem sha256_model_empty :
    String.mk (sha256HexChars [])
      = "e3b0c44298fc1c149afbf4c8996fb92427ae41e4649b934ca495991b7852b855" := by
  decide

/-- C7 (confirmed): `generate_file_id` is a pure, content-independent
function of the document path: it hashes the UTF-8 encoding of the
slash-normalised relative path (`normalizedRelPath`) and truncates the
SHA-256 hex digest to exactly 16 hex characters; paths with the same
normalised relative form get the same identity, and a path outside the
vault root is used as given (the `ValueError` fallback). -/
theorem generate_file_id_spec (vault p q : String) :
    (generate_file_id vault p).length = 16
    ∧ (∀ c ∈ (generate_file_id vault p).data, isHexLower c = true)
    ∧ (normalizedRelPath vault p = normalizedRelPath vault q →
        generate_file_id vault p = generate_file_id vault q)
    ∧ ((vault.data ++ ['/']).isPrefixOf p.data = false →
        normalizedRelPath vault p = backslashToSlash p.data) := by
  refine ⟨?_, ?_, ?_, ?_⟩
  · show (String.mk _).length = 16
    simp [String.length, List.length_take, sha256HexChars_length]
  · intro c hc
    simp only [generate_file_id] at hc
    exact sha256HexChars_hex _ c (List.take_subset 16 _ hc)
  · intro h
    simp [generate_file_id, h]
  · intro h
    simp [normalizedRelPath, relToVault, h]

/-- Witness for C7: a concrete path outside the root normalises like
the same path inside the root and receives the same identity. -/
theorem generate_file_id_spec_witness :
    generate_file_id "v" "a" = generate_file_id "v" "v/a"
    ∧ (generate_file_id "v" "a").length = 16
    ∧ normalizedRelPath "v" "a" = backslashToSlash "a".data := by
  have h := generate_file_id_spec "v" "a" "v/a"
  exact ⟨h.2.2.1 (by decide), h.1, h.2.2.2 (by decide)⟩

/-!
## Closed counterexamples and behaviour evaluations
-/

set_option maxRecDepth 100000

/-- Counterexample for C1: the line `- [x] done` matches the todo
pattern, but the bulleted-item rule fires first, so the parser emits a
`bulleted_list_item` whose text still carries the `[x]` marker — no
to-do block (with or without `checked`) is ever produced. -/
theorem c1_counterexample :
    convert_obsidian_to_notion_blocks ⟨[], "v", "v/d"⟩ "- [x] done"
      = [Block.bulleted "[x] done"]
    ∧ (convert_obsidian_to_notion_blocks ⟨[], "v", "v/d"⟩ "- [x] done").all
        (fun b => match b with | Block.todo _ _ => false | _ => true) = true := by
  decide

/-- Counterexample for C2: the image `pic` resolves in the standalone
case (rule 8 searches `images/` appending `.png`) and yields an image
block, but the same wiki reference inline in a text line goes through
`_resolve_image_path`, which appends no extension, fails, and yields a
warning-placeholder paragraph with a different placeholder text. -/
theorem c2_counterexample :
    convert_obsidian_to_notion_blocks
        ⟨["vault/d/images", "vault/d/images/pic.png"], "vault", "vault/d"⟩ "![[pic]]"
      = [Block.image
          "https://raw.githubusercontent.com/alon211/obsidian_public/main/d/images/pic.png"]
    ∧ convert_obsidian_to_notion_blocks
        ⟨["vault/d/images", "vault/d/images/pic.png"], "vault", "vault/d"⟩ "x ![[pic]] y"
      = [Block.paragraph "[⚠️ pic]", Block.paragraph "x  y"] := by
  decide

/-- C3 (code bug): for a standalone markdown image whose path is an
absolute URL, `_resolve_image_path` returns `None` (its comment says
external images need no processing), and the caller treats `None` as
image-not-found: the parser emits a warning-placeholder paragraph, not
an image block carrying the URL. -/
theorem c3_url_image_behavior :
    convert_obsidian_to_notion_blocks ⟨[], "v", "v/d"⟩ "![alt](https://example.com/a.png)"
      = [Block.paragraph "[⚠️ 图片未找到: https://example.com/a.png]"]
    ∧ resolve_image_path [] "v/d" "https://example.com/a.png" = none
    ∧ resolve_image_path ["v/d/a.png"] "v/d" "https://example.com/a.png" = none := by
  decide

/-- Counterexample for C4: a document whose body after front matter
begins with the heading `# Real Title` (the parser emits that heading
as the first block), yet the derived title is the filename stem,
because title derivation looks only at the literal first line of the
file, which is the front-matter delimiter. -/
theorem c4_counterexample :
    convert_obsidian_to_notion_blocks ⟨[], "v", "v/d"⟩ "---\ntags: x\n---\n# Real Title\nbody"
      = [Block.heading 1 "Real Title", Block.paragraph "body"]
    ∧ titleOf "note" "---\ntags: x\n---\n# Real Title\nbody" = "note"
    ∧ "note" ≠ "Real Title" := by
  decide

/-- Counterexample for C5: an image stored as `pic.GIF` (uppercase) in
the sibling `images/` folder is not found by `find_image_path`, whereas
the spec's search — which tries the uppercase variants of all five
extensions — finds it. -/
theorem c5_counterexample :
    find_image_path ["d/images", "d/images/pic.GIF"] "d" "pic" = none
    ∧ find_image_path_spec ["d/images", "d/images/pic.GIF"] "d" "pic"
        = some "d/images/pic.GIF" := by
  decide

/-- Counterexample for C6: for a 137-block document on the create-page
path, the first 100 blocks travel in the create request and exactly one
append call (not two) carries the remaining 37. -/
theorem c6_counterexample :
    (appendCalls (create_or_update_ops "f" "t" none
        (List.replicate 137 (Block.paragraph "x")))).length = 1
    ∧ (appendCalls (create_or_update_ops "f" "t" none
        (List.replicate 137 (Block.paragraph "x")))).length ≠ 2 := by
  decide

/-- Counterexample for C8: inside a fence opened by ```` ``` ````, the
line ` ```python ` is not "a line whose trimmed content is the closing
fence marker", yet the scanner closes the block there (it only tests
`startswith`): the emitted code text stops before it and the following
line becomes a separate paragraph. -/
theorem c8_counterexample :
    convert_obsidian_to_notion_blocks ⟨[], "v", "v/d"⟩ "```\ncode\n```python\nafter"
      = [Block.code "plain text" "code", Block.paragraph "after"] := by
  decide

/-!
## Batching lemmas (C6)
-/

theorem chunks100Aux_flatten :
    ∀ (fuel : Nat) (l : List Block), l.length ≤ fuel → (chunks100Aux fuel l).flatten = l := by
  intro fuel
  induction fuel with
  | zero =>
    intro l hl
    rw [List.length_eq_zero.mp (Nat.le_zero.mp hl)]
    rfl
  | succ n ih =>
    intro l hl
    cases l with
    | nil => rfl
    | cons a t =>
      have hd : ((a :: t).drop 100).length ≤ n := by
        simp only [List.length_drop, List.length_cons] at *
        omega
      simp only [chunks100Aux, List.flatten_cons, ih _ hd, List.take_append_drop]

theorem chunks100Aux_sizes :
    ∀ (fuel : Nat) (l : List Block), ∀ b ∈ chunks100Aux fuel l, b.length ≤ 100 := by
  intro fuel
  induction fuel with
  | zero => intro l b hb; simp [chunks100Aux] at hb
  | succ n ih =>
    intro l b hb
    cases l with
    | nil => simp [chunks100Aux] at hb
    | cons a t =>
      simp only [chunks100Aux, List.mem_cons] at hb
      rcases hb with rfl | hb
      · simp [List.length_take]
      · exact ih _ b hb

theorem chunks100Aux_count :
    ∀ (fuel : Nat) (l : List Block), l.length ≤ fuel →
      (chunks100Aux fuel l).length = (l.length + 99) / 100 := by
  intro fuel
  induction fuel with
  | zero =>
    intro l hl
    rw [List.length_eq_zero.mp (Nat.le_zero.mp hl)]
    rfl
  | succ n ih =>
    intro l hl
    cases l with
    | nil => rfl
    | cons a t =>
      have hd : ((a :: t).drop 100).length ≤ n := by
        simp only [List.length_drop, List.length_cons] at *
        omega
      simp only [chunks100Aux, List.length_cons, ih _ hd, List.length_drop,
        List.length_cons]
      rcases Nat.lt_or_ge t.length 99 with h | h
      · have h1 : t.length + 1 - 100 = 0 := by omega
        have h2 : (t.length + 1 + 99) / 100 = 1 := by
          have : t.length + 1 + 99 = (t.length) + 100 := by omega
          rw [this, Nat.add_div_right _ (by norm_num), Nat.div_eq_of_lt (by omega)]
        rw [h1, h2]
      · have h1 : t.length + 1 - 100 + 99 = t.length := by omega
        have h2 : t.length + 1 + 99 = t.length + 100 := by omega
        rw [h1, h2, Nat.add_div_right _ (by norm_num)]

theorem chunks100Aux_fuel_irrel :
    ∀ (f1 f2 : Nat) (l : List Block), l.length ≤ f1 → l.length ≤ f2 →
      chunks100Aux f1 l = chunks100Aux f2 l := by
  intro f1
  induction f1 with
  | zero =>
    intro f2 l h1 _
    rw [List.length_eq_zero.mp (Nat.le_zero.mp h1)]
    cases f2 <;> rfl
  | succ n ih =>
    intro f2 l h1 h2
    cases l with
    | nil => cases f2 <;> rfl
    | cons a t =>
      cases f2 with
      | zero => simp at h2
      | succ m =>
        have hd : ((a :: t).drop 100).length ≤ n := by
          simp only [List.length_drop, List.length_cons] at *
          omega
        have hd2 : ((a :: t).drop 100).length ≤ m := by
          simp only [List.length_drop, List.length_cons] at *
          omega
        simp only [chunks100Aux, ih _ _ hd hd2]

theorem filterMap_appendBlocks (ls : List (List Block)) :
    List.filterMap (fun op => match op with
      | RemoteOp.appendBlocks c => some c
      | _ => none) (ls.map RemoteOp.appendBlocks) = ls := by
  induction ls with
  | nil => rfl
  | cons a t ih => simp [List.filterMap_cons, ih]

theorem filterMap_createPage (ls : List (List Block)) :
    List.filterMap (fun op => match op with
      | RemoteOp.createPage _ c => some c
      | _ => none) (ls.map RemoteOp.appendBlocks) = [] := by
  induction ls with
  | nil => rfl
  | cons a t ih => simp [List.filterMap_cons, ih]

theorem chunks100_cons (l : List Block) (h : l ≠ []) :
    chunks100 l = l.take 100 :: chunks100 (l.drop 100) := by
  cases l with
  | nil => exact absurd rfl h
  | cons a t =>
    show chunks100Aux (t.length + 1) (a :: t) = _
    simp only [chunks100Aux]
    refine congrArg _ (chunks100Aux_fuel_irrel _ _ _ ?_ ?_) <;>
      simp [List.length_drop]

theorem chunks100_map_length_137 (bs : List Block) (h : bs.length = 137) :
    (chunks100 bs).map List.length = [100, 37] := by
  have h1 : bs ≠ [] := by intro hn; rw [hn] at h; simp at h
  have h2 : bs.drop 100 ≠ [] := by
    intro hn
    have := congrArg List.length hn
    simp [List.length_drop, h] at this
  have h3 : (bs.drop 100).drop 100 = [] := by
    apply List.eq_nil_of_length_eq_zero
    simp [List.length_drop, h]
  rw [chunks100_cons bs h1, chunks100_cons _ h2, h3]
  show _ :: _ :: (chunks100 []).map _ = _
  simp [List.length_take, List.length_drop, h, chunks100, chunks100Aux]

/-- C6 (corrected): batch partition.  On the update path the append
calls carry exactly the 100-block slices of the parse result, in
order — for a 137-block document two appends of sizes 100 and 37 — and
their count is `ceil(n/100)`.  On the create path the first up-to-100
blocks travel in the create request and the appends carry the slices of
the remainder — for 137 blocks the create request carries 100 and a
single append carries 37.  No create or append request ever carries
more than 100 blocks. -/
theorem c6_batch_partition (fileId title pageId : String) (bs : List Block) :
    (appendCalls (create_or_update_ops fileId title (some pageId) bs)).flatten = bs
    ∧ (∀ b ∈ appendCalls (create_or_update_ops fileId title (some pageId) bs),
        b.length ≤ 100)
    ∧ (appendCalls (create_or_update_ops fileId title (some pageId) bs)).length
        = (bs.length + 99) / 100
    ∧ (createCalls (create_or_update_ops fileId title none bs)).flatten
        ++ (appendCalls (create_or_update_ops fileId title none bs)).flatten = bs
    ∧ (∀ b ∈ createCalls (create_or_update_ops fileId title none bs), b.length ≤ 100)
    ∧ (∀ b ∈ appendCalls (create_or_update_ops fileId title none bs), b.length ≤ 100)
    ∧ (bs.length = 137 →
        (appendCalls (create_or_update_ops fileId title (some pageId) bs)).map List.length
            = [100, 37]
        ∧ (createCalls (create_or_update_ops fileId title none bs)).map List.length = [100]
        ∧ (appendCalls (create_or_update_ops fileId title none bs)).map List.length = [37]) := by
  by_cases hb : bs.isEmpty
  · have : bs = [] := by
      cases bs with
      | nil => rfl
      | cons a t => simp [List.isEmpty] at hb
    subst this
    refine ⟨rfl, by simp [create_or_update_ops, appendCalls], rfl, rfl,
      by simp [create_or_update_ops, createCalls],
      by simp [create_or_update_ops, appendCalls], by intro h; simp at h⟩
  · have hne : bs ≠ [] := by
      cases bs with
      | nil => simp [List.isEmpty] at hb
      | cons a t => simp
    have hupd : appendCalls (create_or_update_ops fileId title (some pageId) bs)
        = chunks100 bs := by
      simp only [create_or_update_ops, hb, Bool.false_eq_true, if_false, appendCalls,
        List.filterMap_cons]
      exact filterMap_appendBlocks _
    have hcrA : appendCalls (create_or_update_ops fileId title none bs)
        = chunks100 (bs.drop 100) := by
      simp only [create_or_update_ops, hb, Bool.false_eq_true, if_false, appendCalls,
        List.filterMap_cons]
      exact filterMap_appendBlocks _
    have hcrC : createCalls (create_or_update_ops fileId title none bs) = [bs.take 100] := by
      simp only [create_or_update_ops, hb, Bool.false_eq_true, if_false, createCalls,
        List.filterMap_cons]
      rw [filterMap_createPage]
    refine ⟨?_, ?_, ?_, ?_, ?_, ?_, ?_⟩
    · rw [hupd]; exact chunks100Aux_flatten _ _ le_rfl
    · rw [hupd]; exact chunks100Aux_sizes _ _
    · rw [hupd]; exact chunks100Aux_count _ _ le_rfl
    · rw [hcrC, hcrA]
      simp only [List.flatten_cons, List.flatten_nil, List.append_nil, chunks100]
      rw [chunks100Aux_flatten _ _ le_rfl, List.take_append_drop]
    · rw [hcrC]
      intro b hbm
      simp only [List.mem_singleton] at hbm
      subst hbm
      simp [List.length_take]
    · rw [hcrA]; exact chunks100Aux_sizes _ _
    · intro h137
      refine ⟨?_, ?_, ?_⟩
      · rw [hupd]; exact chunks100_map_length_137 bs h137
      · rw [hcrC]; simp [List.length_take, h137]
      · rw [hcrA]
        have hlen : (bs.drop 100).length = 37 := by simp [List.length_drop, h137]
        have hne' : bs.drop 100 ≠ [] := by
          intro hn; rw [hn] at hlen; simp at hlen
        have hnil : (bs.drop 100).drop 100 = [] := by
          apply List.eq_nil_of_length_eq_zero
          simp [List.length_drop, h137]
        rw [chunks100_cons _ hne', hnil]
        show _ :: (chunks100 []).map _ = _
        simp [chunks100, chunks100Aux, List.length_take, hlen]

/-- Witness for C6 at a concrete 137-block document. -/
theorem c6_batch_partition_witness :
    (appendCalls (create_or_update_ops "f" "t" (some "p")
        (List.replicate 137 (Block.paragraph "x")))).map List.length = [100, 37]
    ∧ (createCalls (create_or_update_ops "f" "t" none
        (List.replicate 137 (Block.paragraph "x")))).map List.length = [100]
    ∧ (appendCalls (create_or_update_ops "f" "t" none
        (List.replicate 137 (Block.paragraph "x")))).map List.length = [37] :=
  (c6_batch_partition "f" "t" "p" (List.replicate 137 (Block.paragraph "x"))).2.2.2.2.2.2
    (by simp)

theorem drop_dropWhile_length_le (p : α → Bool) (l : List α) :
    ((l.dropWhile p).drop 1).length ≤ l.length :=
  le_trans (by simp [List.length_drop]) (dropWhile_length_le p l)

/-- C9 (confirmed): every iteration of the scanning loop consumes at
least the current line — the lines remaining after one `parseStep` are
strictly fewer than the lines before it, in every branch (front matter,
code fence and inline images included), so the fuel-indexed loop
`convertGo` instantiated with the line count computes the whole parse
and `convert_obsidian_to_notion_blocks` is total. -/
theorem parseStep_advances (ctx : Ctx) (first : Bool) (l : List Char)
    (rest : List (List Char)) :
    (parseStep ctx first l rest).2.length < (l :: rest).length := by
  have key : (parseStep ctx first l rest).2.length ≤ rest.length := by
    simp only [parseStep]
    repeat' split
    all_goals
      first
      | exact le_rfl
      | exact drop_dropWhile_length_le _ _
  simpa [List.length_cons] using Nat.lt_succ_of_le key

/-!
## Dispatch-shape lemmas for the per-line rules
-/

theorem bulletPat_shape {m : List Char} (h : bulletPat m = true) :
    ∃ a b t, m = a :: b :: t ∧ (a = '-' ∨ a = '*') ∧ isPySpace b = true := by
  unfold bulletPat at h
  split at h
  · next a b t =>
    simp only [Bool.and_eq_true] at h
    refine ⟨a, b, t, rfl, ?_, h.2⟩
    simpa using h.1
  · simp at h

theorem todoPat_shape {m : List Char} (h : todoPat m = true) :
    ∃ c d tl, m = '-' :: c :: '[' :: d :: ']' :: tl ∧ isPySpace c = true := by
  unfold todoPat at h
  split at h
  · next c d tl =>
    simp only [Bool.and_eq_true] at h
    exact ⟨c, d, tl, rfl, h.1⟩
  · simp at h

theorem lstripL_of_head {m : List Char} (hne : isPySpace (m.headD ' ') = false) :
    lstripL m = m := by
  cases m with
  | nil => simp [isPySpace] at hne
  | cons a t => exact lstripL_cons_of_neg (by simpa using hne)

theorem rstripL_cons_of_neg {a : Char} {t : List Char} (ha : isPySpace a = false) :
    rstripL (a :: t) = a :: rstripL t := by
  simp only [rstripL, List.reverse_cons, List.dropWhile_append]
  split
  · next he =>
    rw [List.isEmpty_iff] at he
    simp [List.dropWhile_cons, ha, rstripL, he]
  · simp

theorem stripL_cons_of_neg {a : Char} {t : List Char} (ha : isPySpace a = false) :
    stripL (a :: t) = a :: rstripL t := by
  rw [stripL, rstripL_cons_of_neg ha, lstripL_cons_of_neg ha]

/-- C1 (corrected): the per-line dispatch really is first-match-wins
with the bulleted rule ahead of the todo rule, and every line matching
the todo pattern `- [ ]`/`- [x]` also matches the bulleted pattern
(`-` followed by whitespace), so such a line is emitted as a
`bulleted_list_item` whose text is the remainder after the bullet
marker — still carrying the `[ ]`/`[x]` — and never as a to-do block;
the todo rule of line 335 is unreachable. -/
theorem c1_todo_lines_become_bulleted (ctx : Ctx) (first : Bool) (l : List Char)
    (rest : List (List Char)) (h : todoPat (rstripL l) = true) :
    parseStep ctx first l rest
      = ([Block.bulleted (String.mk (bulletContent (rstripL l)))], rest) := by
  obtain ⟨c, d, tl, hm, hc⟩ := todoPat_shape h
  simp only [parseStep, hm]
  rw [if_neg, if_neg, if_neg, if_pos]
  · simp [bulletPat, hc]
  · simp
  · rw [stripL_cons_of_neg (by decide)]
    simp
  · rintro ⟨-, he⟩
    simp at he

/-- Witness for C1 on the concrete line `- [x] done`. -/
theorem c1_todo_lines_become_bulleted_witness :
    parseStep ⟨[], "v", "v/d"⟩ false "- [x] done".data []
      = ([Block.bulleted "[x] done"], []) :=
  (c1_todo_lines_become_bulleted ⟨[], "v", "v/d"⟩ false "- [x] done".data []
    (by decide)).trans (by decide)

/-- C8 (corrected): for a fenced code block, the trimmed text after the
fence on the opening line is the language tag (literal "plain text"
when empty); the following lines are consumed verbatim — blank lines
and lines containing `#` included — joined with newlines, with neither
fence line in the emitted text.  Correction: the block is closed by the
first subsequent line whose trimmed content merely *starts with* the
fence marker, not one that *is* the marker. -/
theorem c8_code_fence (ctx : Ctx) (first : Bool) (l : List Char) (rest : List (List Char))
    (h : ['`', '`', '`'].isPrefixOf (stripL (rstripL l)) = true) :
    parseStep ctx first l rest
      = ([Block.code
            (if stripL ((stripL (rstripL l)).drop 3) = [] then "plain text"
             else String.mk (stripL ((stripL (rstripL l)).drop 3)))
            (String.mk (joinNl
              (rest.takeWhile (fun s => ¬ ['`', '`', '`'].isPrefixOf (stripL s) = true))))],
         (rest.dropWhile (fun s => ¬ ['`', '`', '`'].isPrefixOf (stripL s) = true)).drop 1) := by
  have hs : stripL (rstripL l) = lstripL (rstripL l) := strip_rstrip l
  obtain ⟨ts, hts⟩ : ∃ ts, lstripL (rstripL l) = '`' :: '`' :: '`' :: ts := by
    rw [← hs]
    obtain ⟨ts, hts⟩ := List.isPrefixOf_iff_prefix.mp h
    exact ⟨ts, hts.symm⟩
  simp only [parseStep]
  rw [if_neg, if_neg, if_neg, if_neg, if_neg, if_pos h]
  · intro hb
    obtain ⟨c, d, tl, hm, hc⟩ := todoPat_shape hb
    rw [hm] at hts
    rw [lstripL_cons_of_neg (by decide)] at hts
    simp at hts
  · intro hb
    obtain ⟨a, b, t, hm, ha, hb2⟩ := bulletPat_shape hb
    rw [hm] at hts
    rcases ha with rfl | rfl <;>
      (rw [lstripL_cons_of_neg (by decide)] at hts; simp at hts)
  · intro hh
    have hlm := lstripL_of_head (m := rstripL l) (by rw [hh]; decide)
    rw [hlm] at hts
    rw [hts] at hh
    simp at hh
  · intro hb
    rw [hs, hts] at hb
    simp at hb
  · rintro ⟨-, he⟩
    rw [he] at hts
    rw [lstripL_cons_of_neg (by decide)] at hts
    simp at hts

/-- Witness for C8 on a concrete fence with an internal blank line and
a `#`-carrying line, and a nonempty language tag. -/
theorem c8_code_fence_witness :
    parseStep ⟨[], "v", "v/d"⟩ false "```py".data
        ["a".data, "".data, "# b".data, "```".data, "after".data]
      = ([Block.code "py" "a\n\n# b"], ["after".data]) :=
  (c8_code_fence ⟨[], "v", "v/d"⟩ false "```py".data
    ["a".data, "".data, "# b".data, "```".data, "after".data]
    (by decide)).trans (by decide)

/-!
## Inline-image emission structure (C2)
-/

/-- The text segments strictly between and before matches (the parts
collected inside the loop), starting from cursor `le`. -/
def segsBody (cs : List Char) : Nat → List (Nat × Nat × List Char) → List (List Char)
  | _, [] => []
  | le, m :: ms =>
    (if m.1 > le then [(cs.drop le).take (m.1 - le)] else []) ++ segsBody cs m.2.1 ms

/-- The cursor position after the last match (`last_end`). -/
def lastEndOf : Nat → List (Nat × Nat × List Char) → Nat
  | le, [] => le
  | _, m :: ms => lastEndOf m.2.1 ms

/-- All non-image text segments of the line: the segments between and
before matches plus the tail after the last match. -/
def inlineSegs (cs : List Char) (le : Nat) (ms : List (Nat × Nat × List Char)) :
    List (List Char) :=
  segsBody cs le ms ++
    (if lastEndOf le ms < cs.length then [cs.drop (lastEndOf le ms)] else [])

theorem inlineStep_foldl (ctx : Ctx) (cs : List Char) :
    ∀ (ms : List (Nat × Nat × List Char)) (bs : List Block) (parts : List (List Char))
      (le : Nat),
      ms.foldl (inlineStep ctx cs) (bs, parts, le)
        = (bs ++ (ms.map (fun m => inlineRefBlocks ctx m.2.2)).flatten,
           parts ++ segsBody cs le ms, lastEndOf le ms) := by
  intro ms
  induction ms with
  | nil => intro bs parts le; simp [segsBody, lastEndOf]
  | cons m ms ih =>
    intro bs parts le
    simp only [List.foldl_cons, inlineStep, ih, segsBody, lastEndOf, List.map_cons,
      List.flatten_cons, Prod.mk.injEq]
    refine ⟨by simp [List.append_assoc], ?_, trivial⟩
    split <;> simp [List.append_assoc]

/-- C2 (corrected): a line with inline image references emits one block
list per reference, in the left-to-right order of the references,
followed by at most one trailing paragraph carrying the stripped
concatenation of all non-image text segments, emitted only when that
concatenation is nonblank.  Correction: each reference is materialised
by `inlineRefBlocks`, which — contrary to the claim's "exactly as in
the standalone case" — resolves wiki-style references through
`_resolve_image_path` (no extension-appending search) and uses shorter
placeholder texts; `c2_counterexample` exhibits the difference. -/
theorem c2_inline_images_structure (ctx : Ctx) (cs : List Char)
    (ms : List (Nat × Nat × List Char)) :
    inlineEmit ctx cs ms
      = (ms.map (fun m => inlineRefBlocks ctx m.2.2)).flatten
        ++ (if inlineSegs cs 0 ms ≠ [] ∧ stripL (inlineSegs cs 0 ms).flatten ≠ []
            then [Block.paragraph (String.mk (stripL (inlineSegs cs 0 ms).flatten))]
            else []) := by
  simp only [inlineEmit, inlineStep_foldl, inlineSegs]
  by_cases hc : lastEndOf 0 ms < cs.length
  · simp [hc, List.append_assoc]
  · simp [hc]

/-- C4 (corrected): the derived title is the filename stem unless the
*literal first line of the file*, trimmed, starts with `#`, in which
case that line with the leading `#`-run stripped and trimmed overrides
the stem.  Correction: front matter is not skipped by the title logic,
so a file opening with a front-matter delimiter always keeps the stem
(`c4_counterexample` shows the body's leading heading being ignored). -/
theorem c4_title_derivation (stem content : String) :
    (rstripL ((splitNl content.data).headD []) = ['-', '-', '-'] →
        titleOf stem content = stem)
    ∧ ((stripL ((splitNl content.data).headD [])).headD ' ' = '#' →
        titleOf stem content
          = String.mk (stripL ((stripL ((splitNl content.data).headD [])).dropWhile
              (· = '#')))) := by
  constructor
  · intro h
    unfold titleOf
    rw [show stripL ((splitNl content.data).headD []) = ['-', '-', '-'] from by
      rw [stripL, h]; decide]
    rw [if_neg (by decide)]
  · intro h
    unfold titleOf
    rw [if_pos h]

/-- Witness for C4: a front-matter document keeps the stem; a document
opening with a heading takes the heading text. -/
theorem c4_title_derivation_witness :
    titleOf "note" "---\ntags: x\n---\n# Real\nbody" = "note"
    ∧ titleOf "note" "# T\nbody" = "T" := by
  have h1 := (c4_title_derivation "note" "---\ntags: x\n---\n# Real\nbody").1 (by decide)
  have h2 := (c4_title_derivation "note" "# T\nbody").2 (by decide)
  exact ⟨h1, h2.trans (by decide)⟩

/-!
## Wiki-style search as a single candidate scan (C5)
-/

/-- The ordered candidate list of the wiki-style search: `images/` and
`attachments/` candidates (each guarded by the directory's existence),
then the document's own directory, with the eight source extensions
appended to the cleaned base name. -/
def wikiCandidates (fs : List String) (dir base : String) : List String :=
  (if fs.contains (pathJoin dir "images") then
      imageExts.map (fun e => pathJoin (pathJoin dir "images") (base ++ e))
    else [])
  ++ (if fs.contains (pathJoin dir "attachments") then
      imageExts.map (fun e => pathJoin (pathJoin dir "attachments") (base ++ e))
    else [])
  ++ imageExts.map (fun e => pathJoin dir (base ++ e))

/-- C5 (corrected): wiki-style resolution strips `[`/`]`/`!`
decorations, keeps the base filename, and returns the first existing
candidate in the order `images/`, `attachments/`, own directory, with
extensions appended in source order.  Correction: the extension list is
`.png, .jpg, .jpeg, .gif, .webp, .PNG, .JPG, .JPEG` — the uppercase
variants of `.gif` and `.webp` are never tried (`c5_counterexample`);
unresolved references yield `none`. -/
theorem c5_wiki_search (fs : List String) (markdownDir imageRef : String) :
    find_image_path fs markdownDir imageRef
      = (wikiCandidates fs markdownDir
          (pathName (String.mk (stripCharsL ['[', ']', '!'] imageRef.data)))).find?
          (fun p => fs.contains p) := by
  unfold find_image_path wikiCandidates tryExts
  by_cases h1 : pathJoin markdownDir "images" ∈ fs <;>
    by_cases h2 : pathJoin markdownDir "attachments" ∈ fs <;>
      simp [h1, h2, List.find?_append, Option.or_assoc]

/-- C10 (confirmed): when the first line (after trailing-whitespace
stripping) is exactly `---` and no later line trims to `---`, the
front-matter rule consumes the entire document: the parser returns the
empty block list, and `create_or_update_page` then issues no remote
request at all for the document. -/
theorem c10_unterminated_front_matter (ctx : Ctx) (content : String)
    (h1 : rstripL ((splitNl content.data).headD []) = ['-', '-', '-'])
    (h2 : ∀ cs ∈ (splitNl content.data).tail, stripL cs ≠ ['-', '-', '-']) :
    convert_obsidian_to_notion_blocks ctx content = []
    ∧ (∀ fileId title existing,
        create_or_update_ops fileId title existing
          (convert_obsidian_to_notion_blocks ctx content) = []) := by
  have main : convert_obsidian_to_notion_blocks ctx content = [] := by
    unfold convert_obsidian_to_notion_blocks
    obtain ⟨a, t, ht⟩ : ∃ a t, splitNl content.data = a :: t := by
      cases hsp : splitNl content.data with
      | nil => exact absurd hsp (splitNl_ne_nil _)
      | cons a t => exact ⟨a, t, rfl⟩
    rw [ht] at h1 h2 ⊢
    simp only [List.headD_cons] at h1
    simp only [List.tail_cons] at h2
    have hps : parseStep ctx true a t = ([], []) := by
      simp only [parseStep]
      rw [if_pos ⟨trivial, h1⟩]
      have hdw : t.dropWhile (fun s => decide (stripL s ≠ ['-', '-', '-'])) = [] := by
        rw [List.dropWhile_eq_nil_iff]
        intro x hx
        simpa using h2 x hx
      rw [hdw]
      rfl
    simp only [List.length_cons, convertGo, hps, convertGo_nil, List.append_nil]
  refine ⟨main, ?_⟩
  intro fileId title existing
  rw [main]
  rfl

/-- Witness for C10 on a concrete unterminated front-matter document. -/
theorem c10_unterminated_front_matter_witness :
    convert_obsidian_to_notion_blocks ⟨[], "v", "v/d"⟩ "---\ntitle: x" = []
    ∧ create_or_update_ops "f" "t" none
        (convert_obsidian_to_notion_blocks ⟨[], "v", "v/d"⟩ "---\ntitle: x") = [] := by
  have h := c10_unterminated_front_matter ⟨[], "v", "v/d"⟩ "---\ntitle: x"
    (by decide) (by decide)
  exact ⟨h.1, h.2 "f" "t" none⟩
